import Mathlib

/-!
Verification of the Masterblog post-store service
(`src/backend/backend_app.py`), shallowly embedded in Lean.

The store is the module-level list `POSTS`; each post is a dict with keys
`id`, `title`, `content`.  Every HTTP handler is embedded as a pure
function from its request data and the current store to an
`Except`-style response together with the resulting store.  Python string
operations are modelled on `String` as a list of characters:
`.lower()` maps `Char.toLower` over the characters, `in` is the
substring test, and comparison is lexicographic on code points (the
`LinearOrder String` instance).  Python's stable `list.sort` is modelled
by `List.mergeSort`, which is stable and sorts by the same boolean
comparison the `key`/`reverse` arguments induce.
-/

/-- A blog post record: `{"id": ..., "title": ..., "content": ...}`. -/
structure Post where
  id : Nat
  title : String
  content : String
deriving DecidableEq, Repr

/-- A JSON body for create/update, restricted to the two keys the code
reads: each of `title` and `content` is present (`some`) or absent
(`none`). -/
structure Payload where
  title? : Option String
  content? : Option String
deriving DecidableEq, Repr

/-- The seed collection `POSTS` the module starts with. -/
def seedPosts : List Post :=
  [⟨1, "First post", "This is the first post."⟩,
   ⟨2, "Second post", "This is the second post."⟩]

/-- Python `s.lower()`: lowercase every character. -/
def lowerStr (s : String) : String := ⟨s.data.map Char.toLower⟩

/-- Python `needle in hay` on lists of characters: `needle` occurs as a
contiguous run. -/
def infixCheck (needle : List Char) : List Char → Bool
  | [] => needle.isEmpty
  | c :: cs => needle.isPrefixOf (c :: cs) || infixCheck needle cs

/-- Python `needle in hay` for strings: substring test. -/
def strContains (hay needle : String) : Bool := infixCheck needle.data hay.data

/-- Python truthiness of `request.args.get(...)`: `None` and `''` are
falsy, any other string is truthy. -/
def truthy : Option String → Bool
  | none => false
  | some s => !(s == "")

/-- `valid_fields = {'title', 'content'}` in `get_posts`. -/
def validFields : List String := ["title", "content"]

/-- `valid_directions = {'asc', 'desc'}` in `get_posts`. -/
def validDirections : List String := ["asc", "desc"]

/-- `post[sort_field]` for `sort_field ∈ {'title', 'content'}`. -/
def postField (f : String) (p : Post) : String :=
  if f == "title" then p.title else p.content

/-- The sort key `lambda post: post[sort_field].lower()`. -/
def sortKey (f : String) (p : Post) : String := lowerStr (postField f p)

/-- The boolean comparison that `POSTS.copy().sort(key=..., reverse=...)`
sorts by: ascending on the key, flipped when `reverse` is set. -/
def sortLe (f : String) (reverse : Bool) (a b : Post) : Bool :=
  if reverse then decide (sortKey f b ≤ sortKey f a)
  else decide (sortKey f a ≤ sortKey f b)

/-- `GET /api/posts` (`get_posts`): validate `sort` and `direction`,
then return the collection, sorted when a truthy `sort` is given.
Read-only: the handler sorts a copy of `POSTS`. -/
def get_posts (sortArg directionArg : Option String) (posts : List Post) :
    Except String (List Post) :=
  if truthy sortArg && !(validFields.contains (sortArg.getD "")) then
    .error "Invalid sort field. Must be \"title\" or \"content\"."
  else if truthy directionArg && !(validDirections.contains (directionArg.getD "")) then
    .error "Invalid direction. Must be \"asc\" or \"desc\"."
  else if truthy sortArg then
    .ok ((posts.mergeSort (sortLe (sortArg.getD "") (directionArg == some "desc"))))
  else
    .ok posts

/-- `max(post['id'] for post in POSTS)` (only used when `POSTS` is
nonempty; ids are naturals, so folding `max` from `0` agrees). -/
def maxId (posts : List Post) : Nat :=
  posts.foldr (fun p acc => Nat.max p.id acc) 0

/-- `POST /api/posts` (`add_post`): reject a missing/empty body or a
body lacking `title` or `content` (an empty dict is falsy and takes the
same error branch as a missing key); otherwise append a post with id
`max existing + 1` (or `1` on an empty collection) and return it. -/
def add_post (data : Option Payload) (posts : List Post) :
    Except String Post × List Post :=
  match data with
  | none => (.error "Missing title or content", posts)
  | some d =>
    match d.title?, d.content? with
    | some t, some c =>
      let newId := if posts.isEmpty then 1 else maxId posts + 1
      (.ok ⟨newId, t, c⟩, posts ++ [⟨newId, t, c⟩])
    | _, _ => (.error "Missing title or content", posts)

/-- `next((post for post in POSTS if post['id'] == post_id), None)`. -/
def findById (i : Nat) (posts : List Post) : Option Post :=
  posts.find? (fun p => p.id == i)

/-- `POSTS.remove(post_to_delete)` where `post_to_delete` is the first
post with the given id: drop that first occurrence. -/
def removeFirstById (i : Nat) : List Post → List Post
  | [] => []
  | p :: ps => if p.id == i then ps else p :: removeFirstById i ps

/-- `DELETE /api/posts/<id>` (`delete_post`): 404 with an error message
naming the id when no post has it, else remove the first matching post
and confirm. -/
def delete_post (i : Nat) (posts : List Post) :
    Except String String × List Post :=
  match findById i posts with
  | none => (.error ("Post with id " ++ toString i ++ " not found."), posts)
  | some _ =>
    (.ok ("Post with id " ++ toString i ++ " has been deleted successfully."),
     removeFirstById i posts)

/-- The response body of a successful update: `{'id', 'title', 'content'}`. -/
structure UpdateResp where
  id : Nat
  title : String
  content : String
deriving DecidableEq, Repr

/-- Mutate the first post with the given id in place:
`data.get('title', old)` / `data.get('content', old)` overwrite the two
text fields, the id is untouched. -/
def updateFirstById (i : Nat) (d : Payload) : List Post → List Post
  | [] => []
  | p :: ps =>
    if p.id == i then
      ⟨p.id, d.title?.getD p.title, d.content?.getD p.content⟩ :: ps
    else p :: updateFirstById i d ps

/-- `PUT /api/posts/<id>` (`update_post`): 404 when no post has the id,
else overwrite the provided fields of the first matching post, keep
omitted fields, and return id/title/content after the update. -/
def update_post (i : Nat) (d : Payload) (posts : List Post) :
    Except String UpdateResp × List Post :=
  match findById i posts with
  | none => (.error ("Post with id " ++ toString i ++ " not found."), posts)
  | some p =>
    (.ok ⟨i, d.title?.getD p.title, d.content?.getD p.content⟩,
     updateFirstById i d posts)

/-- The accumulation loop of `search_posts`: queries are already
lowercased; a post is kept when a truthy title query is a substring of
the lowercased title, or a truthy content query is a substring of the
lowercased content. -/
def searchLoop (tq cq : String) : List Post → List Post
  | [] => []
  | p :: ps =>
    let titleMatch := !(tq == "") && strContains (lowerStr p.title) tq
    let contentMatch := !(cq == "") && strContains (lowerStr p.content) cq
    if titleMatch || contentMatch then p :: searchLoop tq cq ps
    else searchLoop tq cq ps

/-- `GET /api/posts/search` (`search_posts`): lowercase the two query
parameters (absent defaults to `''`) and collect the matching posts in
collection order.  Read-only. -/
def search_posts (titleArg contentArg : Option String) (posts : List Post) :
    List Post :=
  searchLoop (lowerStr (titleArg.getD "")) (lowerStr (contentArg.getD "")) posts

/-- A mutating request against the store, for reachability arguments. -/
inductive Op where
  | create (data : Option Payload)
  | update (i : Nat) (data : Payload)
  | delete (i : Nat)
deriving Repr

/-- The store after handling one mutating request (a failed request
leaves the store unchanged, as each handler does). -/
def applyOp (posts : List Post) : Op → List Post
  | .create d => (add_post d posts).2
  | .update i d => (update_post i d posts).2
  | .delete i => (delete_post i posts).2

/-- The store reached from the seed state by a sequence of requests. -/
def runOps (ops : List Op) : List Post :=
  ops.foldl applyOp seedPosts

/-! ### Helper lemmas -/

theorem id_le_maxId {posts : List Post} {p : Post} (h : p ∈ posts) :
    p.id ≤ maxId posts := by
  induction posts with
  | nil => cases h
  | cons q ps ih =>
    rcases List.mem_cons.mp h with rfl | h'
    · exact Nat.le_max_left _ _
    · exact le_trans (ih h') (Nat.le_max_right _ _)

theorem maxId_mem {posts : List Post} (h : posts ≠ []) :
    ∃ p ∈ posts, maxId posts = p.id := by
  induction posts with
  | nil => exact absurd rfl h
  | cons q ps ih =>
    by_cases hps : ps = []
    · subst hps
      refine ⟨q, List.mem_cons_self _ _, ?_⟩
      show Nat.max q.id (maxId []) = q.id
      simp [maxId]
    · obtain ⟨p, hp, hm⟩ := ih hps
      by_cases hle : maxId ps ≤ q.id
      · refine ⟨q, List.mem_cons_self _ _, ?_⟩
        exact Nat.le_antisymm (Nat.max_le.mpr ⟨Nat.le_refl _, hle⟩) (Nat.le_max_left _ _)
      · refine ⟨p, List.mem_cons_of_mem _ hp, ?_⟩
        show Nat.max q.id (maxId ps) = p.id
        have h1 : Nat.max q.id (maxId ps) = maxId ps :=
          Nat.le_antisymm
            (Nat.max_le.mpr ⟨Nat.le_of_lt (Nat.lt_of_not_le hle), Nat.le_refl _⟩)
            (Nat.le_max_right _ _)
        rw [h1, hm]

/-- The id the create handler assigns on a given store. -/
theorem add_post_ok (posts : List Post) (t c : String) :
    add_post (some ⟨some t, some c⟩) posts
      = (.ok ⟨if posts.isEmpty then 1 else maxId posts + 1, t, c⟩,
         posts ++ [⟨if posts.isEmpty then 1 else maxId posts + 1, t, c⟩]) := rfl


/-! ### Claims -/

/-- C2: create with both `title` and `content` assigns the new post the id
`1 + max existing id` (or `1` on an empty collection), appends it at the
end, and returns the created post with that id. -/
theorem claim_C2_create_assigns_max_succ (posts : List Post) (t c : String) :
    let n := if posts.isEmpty then 1 else maxId posts + 1
    add_post (some ⟨some t, some c⟩) posts
        = (.ok ⟨n, t, c⟩, posts ++ [⟨n, t, c⟩])
      ∧ (posts = [] → n = 1)
      ∧ (∀ p ∈ posts, p.id < n)
      ∧ (posts ≠ [] → ∃ p ∈ posts, n = p.id + 1) := by
  refine ⟨add_post_ok posts t c, ?_, ?_, ?_⟩
  · intro h; subst h; rfl
  · intro p hp
    have hne : posts.isEmpty = false := by
      cases posts with
      | nil => cases hp
      | cons q ps => rfl
    simp only [hne, if_false, Bool.false_eq_true]
    exact Nat.lt_succ_of_le (id_le_maxId hp)
  · intro h
    obtain ⟨p, hp, hm⟩ := maxId_mem h
    have hne : posts.isEmpty = false := by
      cases posts with
      | nil => exact absurd rfl h
      | cons q ps => rfl
    exact ⟨p, hp, by simp only [hne, Bool.false_eq_true, if_false, hm]⟩

/-- Witness for C2 at the seed collection: the new post gets id 3 = 2 + 1,
where 2 is the id of a post of the collection. -/
theorem claim_C2_witness :
    add_post (some ⟨some "A", some "B"⟩) seedPosts
        = (.ok ⟨3, "A", "B"⟩, seedPosts ++ [⟨3, "A", "B"⟩])
      ∧ ∃ p ∈ seedPosts, 3 = p.id + 1 := by
  have h := claim_C2_create_assigns_max_succ seedPosts "A" "B"
  exact ⟨h.1, h.2.2.2 (by decide)⟩

/-- C10: create validation is presence-only: the MissingField error occurs
exactly when the body is absent or lacks one of the two keys (an empty
body is both falsy and lacks the keys), and any body carrying both keys —
even mapped to empty strings — succeeds and is stored verbatim. -/
theorem claim_C10_presence_only_validation (posts : List Post) (data : Option Payload) :
    ((add_post data posts).1 = .error "Missing title or content" ↔
      data = none ∨ ∃ d, data = some d ∧ (d.title? = none ∨ d.content? = none))
    ∧ (∀ t c, data = some ⟨some t, some c⟩ →
        ∃ n, add_post data posts = (.ok ⟨n, t, c⟩, posts ++ [⟨n, t, c⟩])) := by
  constructor
  · cases data with
    | none => simp [add_post]
    | some d =>
      cases hd : d.title? with
      | none =>
        simp only [add_post]
        cases d with
        | mk tf cf =>
          simp only at hd
          subst hd
          simp
      | some t =>
        cases hc : d.content? with
        | none =>
          cases d with
          | mk tf cf =>
            simp only at hd hc
            subst hd; subst hc
            simp [add_post]
        | some c =>
          cases d with
          | mk tf cf =>
            simp only at hd hc
            subst hd; subst hc
            simp [add_post]
  · intro t c hdc
    subst hdc
    exact ⟨_, add_post_ok posts t c⟩

/-- Witness for C10: a body with both keys mapped to empty strings is
accepted and stored verbatim on the seed collection. -/
theorem claim_C10_witness :
    ∃ n, add_post (some ⟨some "", some ""⟩) seedPosts
      = (.ok ⟨n, "", ""⟩, seedPosts ++ [⟨n, "", ""⟩]) :=
  (claim_C10_presence_only_validation seedPosts (some ⟨some "", some ""⟩)).2 "" "" rfl

/-- C9: a list request without `sort` returns the collection in insertion
order, also when a valid `direction` is supplied alone (it is ignored,
no error); the handler reads but never writes the store. -/
theorem claim_C9_no_sort_insertion_order (posts : List Post)
    (directionArg : Option String)
    (h : directionArg = none ∨ directionArg = some "asc" ∨ directionArg = some "desc") :
    get_posts none directionArg posts = .ok posts := by
  rcases h with rfl | rfl | rfl <;> rfl

/-- Witness for C9: direction `desc` without `sort` on the seed state. -/
theorem claim_C9_witness :
    get_posts none (some "desc") seedPosts = .ok seedPosts :=
  claim_C9_no_sort_insertion_order seedPosts (some "desc") (Or.inr (Or.inr rfl))

theorem lowerStr_empty_iff (s : String) : lowerStr s = "" ↔ s = "" := by
  cases s with
  | mk cs =>
    constructor
    · intro h
      have hdata : cs.map Char.toLower = ([] : List Char) := congrArg String.data h
      have : cs = [] := List.map_eq_nil_iff.mp hdata
      exact String.ext (by simpa using this)
    · intro h
      cases congrArg String.data h
      rfl

theorem lowerStr_beq_empty (s : String) : (lowerStr s == "") = (s == "") := by
  by_cases h : s = ""
  · rw [beq_iff_eq.mpr ((lowerStr_empty_iff s).mpr h), beq_iff_eq.mpr h]
  · rw [beq_eq_false_iff_ne.mpr (fun hc => h ((lowerStr_empty_iff s).mp hc)),
      beq_eq_false_iff_ne.mpr h]

theorem searchLoop_eq_filter (tq cq : String) (posts : List Post) :
    searchLoop tq cq posts
      = posts.filter (fun p =>
          (!(tq == "") && strContains (lowerStr p.title) tq)
          || (!(cq == "") && strContains (lowerStr p.content) cq)) := by
  induction posts with
  | nil => rfl
  | cons p ps ih =>
    simp only [searchLoop, List.filter_cons]
    by_cases h : ((!(tq == "") && strContains (lowerStr p.title) tq)
        || (!(cq == "") && strContains (lowerStr p.content) cq)) = true
    · simp [h, ih]
    · simp only [Bool.not_eq_true] at h
      simp [h, ih]

/-- C4: search returns exactly the posts, in collection order, whose
lowercased title contains a non-empty lowercased title query or whose
lowercased content contains a non-empty lowercased content query; with
both queries empty (or absent) the result is empty.  The handler is
read-only by construction. -/
theorem claim_C4_search_filter (titleArg contentArg : Option String)
    (posts : List Post) :
    search_posts titleArg contentArg posts
      = posts.filter (fun p =>
          (!(titleArg.getD "" == "")
            && strContains (lowerStr p.title) (lowerStr (titleArg.getD "")))
          || (!(contentArg.getD "" == "")
            && strContains (lowerStr p.content) (lowerStr (contentArg.getD ""))))
    ∧ (titleArg.getD "" = "" → contentArg.getD "" = "" →
        search_posts titleArg contentArg posts = []) := by
  constructor
  · rw [search_posts, searchLoop_eq_filter]
    simp only [lowerStr_beq_empty]
  · intro ht hc
    rw [search_posts, searchLoop_eq_filter]
    simp [(lowerStr_empty_iff _).mpr ht, (lowerStr_empty_iff _).mpr hc]

/-- Witness for C4: both query parameters present but empty on the seed
collection give the empty result. -/
theorem claim_C4_witness :
    search_posts (some "") (some "") seedPosts = [] :=
  (claim_C4_search_filter (some "") (some "") seedPosts).2 rfl rfl

theorem delete_split {posts : List Post} {i : Nat} (h : ∃ p ∈ posts, p.id = i) :
    ∃ l₁ p l₂, posts = l₁ ++ p :: l₂ ∧ p.id = i ∧ (∀ q ∈ l₁, q.id ≠ i)
      ∧ findById i posts = some p ∧ removeFirstById i posts = l₁ ++ l₂ := by
  induction posts with
  | nil =>
    obtain ⟨p, hp, _⟩ := h
    cases hp
  | cons q ps ih =>
    by_cases hq : q.id = i
    · refine ⟨[], q, ps, rfl, hq, ?_, ?_, ?_⟩
      · intro r hr; cases hr
      · rw [findById, List.find?_cons_of_pos _ (by simpa using hq)]
      · rw [removeFirstById, if_pos (by simpa using hq)]
        rfl
    · obtain ⟨p, hp, hpi⟩ := h
      rcases List.mem_cons.mp hp with rfl | hp'
      · exact absurd hpi hq
      · obtain ⟨l₁, p', l₂, hsplit, hpi', hnone, hfind, hrem⟩ := ih ⟨p, hp', hpi⟩
        refine ⟨q :: l₁, p', l₂, by rw [hsplit]; rfl, hpi', ?_, ?_, ?_⟩
        · intro r hr
          rcases List.mem_cons.mp hr with rfl | hr'
          · exact hq
          · exact hnone r hr'
        · rw [findById, List.find?_cons_of_neg _ (by simpa using hq)]
          exact hfind
        · rw [removeFirstById, if_neg (by simpa using hq), hrem]
          rfl

/-- C6: deleting an existing id removes exactly the first (with unique
ids: the only) post carrying it — the posts before and after it are kept
in order and the length drops by one — and returns a confirmation naming
the id; deleting an absent id yields the NotFound error naming it and
leaves the collection unchanged. -/
theorem claim_C6_delete (posts : List Post) (i : Nat) :
    ((∃ p ∈ posts, p.id = i) →
      ∃ l₁ p l₂, posts = l₁ ++ p :: l₂ ∧ p.id = i ∧ (∀ q ∈ l₁, q.id ≠ i)
        ∧ delete_post i posts
          = (.ok ("Post with id " ++ toString i ++ " has been deleted successfully."),
             l₁ ++ l₂)
        ∧ (l₁ ++ l₂).length + 1 = posts.length)
    ∧ ((∀ p ∈ posts, p.id ≠ i) →
        delete_post i posts
          = (.error ("Post with id " ++ toString i ++ " not found."), posts)) := by
  constructor
  · intro h
    obtain ⟨l₁, p, l₂, hsplit, hpi, hnone, hfind, hrem⟩ := delete_split h
    refine ⟨l₁, p, l₂, hsplit, hpi, hnone, ?_, ?_⟩
    · rw [delete_post, hfind, hrem]
    · rw [hsplit]
      simp only [List.length_append, List.length_cons]
      omega
  · intro h
    have hfind : findById i posts = none := by
      rw [findById, List.find?_eq_none]
      intro p hp
      simpa using h p hp
    rw [delete_post, hfind]

/-- Witness for C6: deleting the absent id 99 (the spec's scenario) fails
with the NotFound message and leaves the seed collection unchanged, and
deleting id 2 removes exactly the second seed post. -/
theorem claim_C6_witness :
    delete_post 99 seedPosts
        = (.error ("Post with id " ++ toString 99 ++ " not found."), seedPosts)
      ∧ ∃ l₁ p l₂, seedPosts = l₁ ++ p :: l₂ ∧ p.id = 2 ∧ (∀ q ∈ l₁, q.id ≠ 2)
        ∧ delete_post 2 seedPosts
          = (.ok ("Post with id " ++ toString 2 ++ " has been deleted successfully."),
             l₁ ++ l₂)
        ∧ (l₁ ++ l₂).length + 1 = seedPosts.length :=
  ⟨(claim_C6_delete seedPosts 99).2 (by decide),
   (claim_C6_delete seedPosts 2).1
     ⟨⟨2, "Second post", "This is the second post."⟩, by decide, rfl⟩⟩

theorem updateFirstById_map_id (i : Nat) (d : Payload) (posts : List Post) :
    (updateFirstById i d posts).map Post.id = posts.map Post.id := by
  induction posts with
  | nil => rfl
  | cons q ps ih =>
    by_cases hq : q.id = i
    · rw [updateFirstById, if_pos (by simpa using hq)]
      rfl
    · rw [updateFirstById, if_neg (by simpa using hq), List.map_cons, ih]
      rfl

theorem updateFirstById_length (i : Nat) (d : Payload) (posts : List Post) :
    (updateFirstById i d posts).length = posts.length := by
  have h := congrArg List.length (updateFirstById_map_id i d posts)
  simpa using h

theorem findById_of_nodup {posts : List Post} {p : Post} {i : Nat}
    (hnodup : (posts.map Post.id).Nodup) (hmem : p ∈ posts) (hid : p.id = i) :
    findById i posts = some p := by
  obtain ⟨l₁, p', l₂, hsplit, hpi', hnone, hfind, -⟩ := delete_split ⟨p, hmem, hid⟩
  have hp'mem : p' ∈ posts := by
    rw [hsplit]
    exact List.mem_append_right _ (List.mem_cons_self _ _)
  have hpp : p = p' :=
    List.inj_on_of_nodup_map hnodup hmem hp'mem (by rw [hid, hpi'])
  rw [hfind, hpp]

theorem updateFirstById_eq_map {posts : List Post} {i : Nat} (d : Payload)
    (hnodup : (posts.map Post.id).Nodup) :
    updateFirstById i d posts
      = posts.map (fun q => if q.id = i
          then { q with title := d.title?.getD q.title,
                        content := d.content?.getD q.content }
          else q) := by
  induction posts with
  | nil => rfl
  | cons q ps ih =>
    obtain ⟨hnotin, hnd⟩ : (∀ x ∈ ps, ¬x.id = q.id) ∧ (ps.map Post.id).Nodup := by
      simpa using hnodup
    by_cases hq : q.id = i
    · rw [updateFirstById, if_pos (by simpa using hq), List.map_cons, if_pos hq]
      have htail : ∀ r ∈ ps, (if r.id = i
          then { r with title := d.title?.getD r.title,
                        content := d.content?.getD r.content }
          else r) = r := by
        intro r hr
        have hri : r.id ≠ i := fun hri => hnotin r hr (by rw [hri, hq])
        rw [if_neg hri]
      rw [List.map_congr_left htail]
      simp
    · rw [updateFirstById, if_neg (by simpa using hq), ih hnd, List.map_cons,
        if_neg hq]

/-- C5: updating an existing id (ids unique) overwrites exactly the
provided fields of that post, keeps each omitted field and the id,
leaves every other post and the length unchanged, and returns the id
with the post-update title and content. -/
theorem claim_C5_update (posts : List Post) (i : Nat) (d : Payload) (p : Post)
    (hmem : p ∈ posts) (hid : p.id = i) (hnodup : (posts.map Post.id).Nodup) :
    update_post i d posts
      = (.ok ⟨i, d.title?.getD p.title, d.content?.getD p.content⟩,
         posts.map (fun q => if q.id = i
            then { q with title := d.title?.getD q.title,
                          content := d.content?.getD q.content }
            else q))
    ∧ (update_post i d posts).2.length = posts.length
    ∧ (update_post i d posts).2.map Post.id = posts.map Post.id := by
  have hfind : findById i posts = some p := findById_of_nodup hnodup hmem hid
  refine ⟨?_, ?_, ?_⟩
  · rw [update_post, hfind, updateFirstById_eq_map d hnodup]
  · rw [update_post, hfind]
    exact updateFirstById_length i d posts
  · rw [update_post, hfind]
    exact updateFirstById_map_id i d posts

/-- Witness for C5: updating post 1 of the seed collection with only a
title keeps its content, its id, and the second post. -/
theorem claim_C5_witness :
    update_post 1 ⟨some "New title", none⟩ seedPosts
      = (.ok ⟨1, "New title", "This is the first post."⟩,
         [⟨1, "New title", "This is the first post."⟩,
          ⟨2, "Second post", "This is the second post."⟩]) := by
  have h := (claim_C5_update seedPosts 1 ⟨some "New title", none⟩
    ⟨1, "First post", "This is the first post."⟩ (by decide) rfl (by decide)).1
  simpa using h

/-- C7 counterexample: the claim demands an InvalidParameter failure for
every present-but-invalid `sort` value "including the empty string", but
a present empty `sort` is falsy, skips both validation and sorting, and
the request succeeds with the unsorted collection. -/
theorem claim_C7_counterexample :
    get_posts (some "") none seedPosts = .ok seedPosts
    ∧ (some "" : Option String) ≠ none
    ∧ "" ∉ validFields :=
  ⟨rfl, by decide, by decide⟩

/-- C7 amended: a present, non-empty `sort` value outside
{title, content} fails with the sort error; a present, non-empty
`direction` outside {asc, desc} fails with the direction error provided
the sort check passed; a present empty string is treated as absent.
The handler never writes the store. -/
theorem claim_C7_amended (posts : List Post) (sortArg directionArg : Option String) :
    (∀ s, sortArg = some s → s ≠ "" → s ∉ validFields →
      get_posts sortArg directionArg posts
        = .error "Invalid sort field. Must be \"title\" or \"content\".")
    ∧ (∀ t, directionArg = some t → t ≠ "" → t ∉ validDirections →
        (sortArg = none ∨ sortArg = some "" ∨ sortArg.getD "" ∈ validFields) →
        get_posts sortArg directionArg posts
          = .error "Invalid direction. Must be \"asc\" or \"desc\".") := by
  constructor
  · intro s hs hne hnf
    subst hs
    rw [get_posts, if_pos]
    simp [truthy, hne, hnf]
  · intro t ht hne hnf hsort
    subst ht
    have hfirst : (truthy sortArg && !(validFields.contains (sortArg.getD ""))) = false := by
      rcases hsort with rfl | rfl | hmem
      · rfl
      · rfl
      · simp [hmem]
    rw [get_posts, hfirst]
    simp [truthy, hne, hnf]

/-- Witness for C7 amended: a bogus non-empty sort value errors, and a
bogus non-empty direction with a valid sort errors. -/
theorem claim_C7_witness :
    get_posts (some "bogus") none seedPosts
        = .error "Invalid sort field. Must be \"title\" or \"content\"."
    ∧ get_posts (some "title") (some "up") seedPosts
        = .error "Invalid direction. Must be \"asc\" or \"desc\"." :=
  ⟨(claim_C7_amended seedPosts (some "bogus") none).1 "bogus" rfl (by decide) (by decide),
   (claim_C7_amended seedPosts (some "title") (some "up")).2 "up" rfl (by decide)
     (by decide) (Or.inr (Or.inr (by decide)))⟩

/-- C1 counterexample: from the seed state, deleting the post with id 2
succeeds, and the next create reassigns the freed id 2, which then
appears in the listing: deleted ids ARE reused when they exceed every
remaining id. -/
theorem claim_C1_counterexample :
    (delete_post 2 seedPosts).1
        = .ok ("Post with id " ++ toString 2 ++ " has been deleted successfully.")
    ∧ runOps [Op.delete 2, Op.create (some ⟨some "A", some "B"⟩)]
        = [⟨1, "First post", "This is the first post."⟩, ⟨2, "A", "B"⟩]
    ∧ get_posts none none (runOps [Op.delete 2, Op.create (some ⟨some "A", some "B"⟩)])
        = .ok [⟨1, "First post", "This is the first post."⟩, ⟨2, "A", "B"⟩] :=
  ⟨rfl, by decide, rfl⟩

/-- C1 amended: a deleted id can be reassigned once no greater or equal
id remains (deleting the maximum id frees it for the very next create);
but while some post with id at least `d` is still in the collection, no
create assigns `d`, so an id strictly below the current maximum never
reappears. -/
theorem claim_C1_amended (posts : List Post) (data : Option Payload)
    (d : Nat) (p : Post) (post : Post) (s' : List Post)
    (hmem : p ∈ posts) (hle : d ≤ p.id)
    (h : add_post data posts = (.ok post, s')) :
    post.id ≠ d := by
  cases data with
  | none => simp [add_post] at h
  | some pl =>
    cases hd : pl.title? with
    | none =>
      cases pl
      simp only at hd
      subst hd
      simp [add_post] at h
    | some t =>
      cases hc : pl.content? with
      | none =>
        cases pl
        simp only at hd hc
        subst hd; subst hc
        simp [add_post] at h
      | some c =>
        cases pl
        simp only at hd hc
        subst hd; subst hc
        have hne : posts.isEmpty = false := by
          cases posts with
          | nil => cases hmem
          | cons q ps => rfl
        rw [add_post_ok] at h
        injection h with h1 h2
        injection h1 with h3
        have hid : post.id = maxId posts + 1 := by
          rw [← h3]
          simp [hne]
        have hmax : p.id ≤ maxId posts := id_le_maxId hmem
        omega

/-- Witness for C1 amended: creating on the seed collection never
reassigns id 1, which is at most the id 2 still present. -/
theorem claim_C1_amended_witness :
    (⟨3, "A", "B"⟩ : Post).id ≠ 1 := by
  apply claim_C1_amended seedPosts (some ⟨some "A", some "B"⟩) 1
    ⟨2, "Second post", "This is the second post."⟩ ⟨3, "A", "B"⟩
    (seedPosts ++ [⟨3, "A", "B"⟩]) (by decide) (by decide)
  show add_post (some ⟨some "A", some "B"⟩) seedPosts
      = (.ok ⟨3, "A", "B"⟩, seedPosts ++ [⟨3, "A", "B"⟩])
  rfl

theorem removeFirstById_sublist (i : Nat) (posts : List Post) :
    (removeFirstById i posts).Sublist posts := by
  induction posts with
  | nil => exact List.Sublist.refl _
  | cons q ps ih =>
    rw [removeFirstById]
    by_cases hq : q.id = i
    · rw [if_pos (by simpa using hq)]
      exact (List.sublist_cons_self _ _)
    · rw [if_neg (by simpa using hq)]
      exact List.Sublist.cons₂ _ ih

theorem add_post_preserves_nodup {posts : List Post} (data : Option Payload)
    (h : (posts.map Post.id).Nodup) :
    (((add_post data posts).2).map Post.id).Nodup := by
  cases data with
  | none => exact h
  | some d =>
    cases hd : d.title? with
    | none =>
      cases d
      simp only at hd
      subst hd
      exact h
    | some t =>
      cases hc : d.content? with
      | none =>
        cases d
        simp only at hd hc
        subst hd; subst hc
        exact h
      | some c =>
        cases d
        simp only at hd hc
        subst hd; subst hc
        rw [add_post_ok]
        simp only [List.map_append, List.map_cons, List.map_nil]
        rw [List.nodup_append]
        refine ⟨h, List.nodup_singleton _, ?_⟩
        intro x hx hy
        cases posts with
        | nil => cases hx
        | cons q ps =>
          obtain ⟨p, hp, hpx⟩ := List.mem_map.mp hx
          have hmax : p.id ≤ maxId (q :: ps) := id_le_maxId hp
          have hx' : x = maxId (q :: ps) + 1 := by
            simpa using hy
          omega

theorem applyOp_preserves_nodup {posts : List Post} (op : Op)
    (h : (posts.map Post.id).Nodup) :
    (((applyOp posts op).map Post.id)).Nodup := by
  cases op with
  | create d => exact add_post_preserves_nodup d h
  | update i d =>
    show (((update_post i d posts).2).map Post.id).Nodup
    rw [update_post]
    cases hfind : findById i posts with
    | none => exact h
    | some p =>
      simp only
      rw [updateFirstById_map_id]
      exact h
  | delete i =>
    show (((delete_post i posts).2).map Post.id).Nodup
    rw [delete_post]
    cases hfind : findById i posts with
    | none => exact h
    | some p =>
      simp only
      exact ((removeFirstById_sublist i posts).map Post.id).nodup h

theorem runOps_cons_nodup (ops : List Op) {s : List Post}
    (h : (s.map Post.id).Nodup) :
    ((ops.foldl applyOp s).map Post.id).Nodup := by
  induction ops generalizing s with
  | nil => exact h
  | cons op rest ih =>
    exact ih (applyOp_preserves_nodup op h)

/-- C8: every state reachable from the seed by create/update/delete
requests has pairwise-distinct ids; a successful create assigns an id
strictly greater than every existing id, and update never changes the
stored id multiset (delete only removes). -/
theorem claim_C8_ids_distinct (ops : List Op) :
    ((runOps ops).map Post.id).Nodup
    ∧ (∀ (posts : List Post) (data : Option Payload) (post : Post) (s' : List Post),
        add_post data posts = (.ok post, s') → ∀ p ∈ posts, p.id < post.id)
    ∧ (∀ (posts : List Post) (i : Nat) (d : Payload),
        (update_post i d posts).2.map Post.id = posts.map Post.id) := by
  refine ⟨runOps_cons_nodup ops (by decide), ?_, ?_⟩
  · intro posts data post s' h p hp
    cases data with
    | none => simp [add_post] at h
    | some pl =>
      cases hd : pl.title? with
      | none =>
        cases pl
        simp only at hd
        subst hd
        simp [add_post] at h
      | some t =>
        cases hc : pl.content? with
        | none =>
          cases pl
          simp only at hd hc
          subst hd; subst hc
          simp [add_post] at h
        | some c =>
          cases pl
          simp only at hd hc
          subst hd; subst hc
          have hne : posts.isEmpty = false := by
            cases posts with
            | nil => cases hp
            | cons q ps => rfl
          rw [add_post_ok] at h
          injection h with h1 h2
          injection h1 with h3
          have hid : post.id = maxId posts + 1 := by
            rw [← h3]
            simp [hne]
          have hmax : p.id ≤ maxId posts := id_le_maxId hp
          omega
  · intro posts i d
    rw [update_post]
    cases hfind : findById i posts with
    | none => rfl
    | some p =>
      simp only
      exact updateFirstById_map_id i d posts

/-- Witness for C8: a mixed request trace keeps ids distinct, the create
on the seed state assigns an id above the existing ones, and an update
keeps the seed's id list. -/
theorem claim_C8_witness :
    ((runOps [Op.create (some ⟨some "A", some "B"⟩), Op.delete 1,
        Op.update 2 ⟨none, some "edited"⟩]).map Post.id).Nodup
    ∧ (⟨2, "Second post", "This is the second post."⟩ : Post).id
        < (⟨3, "A", "B"⟩ : Post).id
    ∧ (update_post 2 ⟨none, some "edited"⟩ seedPosts).2.map Post.id
        = seedPosts.map Post.id := by
  refine ⟨(claim_C8_ids_distinct _).1, ?_, (claim_C8_ids_distinct []).2.2 seedPosts 2 _⟩
  apply (claim_C8_ids_distinct []).2.1 seedPosts (some ⟨some "A", some "B"⟩)
    ⟨3, "A", "B"⟩ (seedPosts ++ [⟨3, "A", "B"⟩]) ?_ _ (by decide)
  show add_post (some ⟨some "A", some "B"⟩) seedPosts
      = (.ok ⟨3, "A", "B"⟩, seedPosts ++ [⟨3, "A", "B"⟩])
  rfl

theorem sortLe_trans (f : String) (rev : Bool) :
    ∀ a b c, sortLe f rev a b → sortLe f rev b c → sortLe f rev a c := by
  intro a b c hab hbc
  cases rev with
  | false =>
    simp only [sortLe, if_false, Bool.false_eq_true, decide_eq_true_eq] at hab hbc ⊢
    exact le_trans hab hbc
  | true =>
    simp only [sortLe, if_true, decide_eq_true_eq] at hab hbc ⊢
    exact le_trans hbc hab

theorem sortLe_total (f : String) (rev : Bool) :
    ∀ a b, sortLe f rev a b || sortLe f rev b a := by
  intro a b
  cases rev with
  | false =>
    simp only [sortLe, if_false, Bool.false_eq_true, Bool.or_eq_true, decide_eq_true_eq]
    exact le_total _ _
  | true =>
    simp only [sortLe, if_true, Bool.or_eq_true, decide_eq_true_eq]
    exact le_total _ _

/-- Stability of the modelled sort: for every key value, the posts
carrying that key come out in the same relative order they went in. -/
theorem mergeSort_filter_key (f : String) (rev : Bool) (posts : List Post)
    (v : String) :
    (posts.mergeSort (sortLe f rev)).filter (fun p => sortKey f p == v)
      = posts.filter (fun p => sortKey f p == v) := by
  have hall : ∀ p ∈ posts.filter (fun p => sortKey f p == v), sortKey f p = v := by
    intro p hp
    simpa using List.of_mem_filter hp
  have hpair : (posts.filter (fun p => sortKey f p == v)).Pairwise
      (fun a b => sortLe f rev a b) := by
    apply List.pairwise_of_forall_mem_list
    intro a ha b hb
    cases rev with
    | false => simp [sortLe, hall a ha, hall b hb]
    | true => simp [sortLe, hall a ha, hall b hb]
  have h1 : (posts.filter (fun p => sortKey f p == v)).Sublist
      (posts.mergeSort (sortLe f rev)) :=
    List.sublist_mergeSort (sortLe_trans f rev) (sortLe_total f rev) hpair
      (List.filter_sublist posts)
  have h2 : (posts.filter (fun p => sortKey f p == v)).Sublist
      ((posts.mergeSort (sortLe f rev)).filter (fun p => sortKey f p == v)) := by
    have h3 := h1.filter (fun p => sortKey f p == v)
    rwa [List.filter_eq_self.mpr (fun p hp => by simpa using hall p hp)] at h3
  have hlen : ((posts.mergeSort (sortLe f rev)).filter
      (fun p => sortKey f p == v)).length
      = (posts.filter (fun p => sortKey f p == v)).length :=
    ((List.mergeSort_perm posts (sortLe f rev)).filter _).length_eq
  exact (h2.eq_of_length hlen.symm).symm

theorem get_posts_sort_eq (f : String) (directionArg : Option String)
    (posts : List Post) (hf : f ∈ validFields)
    (hd : directionArg = none ∨ directionArg = some "asc" ∨ directionArg = some "desc") :
    get_posts (some f) directionArg posts
      = .ok (posts.mergeSort (sortLe f (directionArg == some "desc"))) := by
  have hf' : f = "title" ∨ f = "content" := by simpa [validFields] using hf
  rcases hd with rfl | rfl | rfl <;> rcases hf' with rfl | rfl <;> rfl

/-- C3: with a valid sort field and a valid (or absent) direction, the
listing is a permutation of the collection whose keys — the lowercased
chosen field — are non-decreasing (non-increasing for `desc`), and posts
with equal keys keep their relative insertion order. -/
theorem claim_C3_sort_listing (posts : List Post) (f : String)
    (directionArg : Option String) (hf : f ∈ validFields)
    (hd : directionArg = none ∨ directionArg = some "asc" ∨ directionArg = some "desc") :
    ∃ l, get_posts (some f) directionArg posts = .ok l
      ∧ l.Perm posts
      ∧ l.Pairwise (fun a b =>
          if directionArg = some "desc" then sortKey f b ≤ sortKey f a
          else sortKey f a ≤ sortKey f b)
      ∧ ∀ v : String, l.filter (fun p => sortKey f p == v)
          = posts.filter (fun p => sortKey f p == v) := by
  refine ⟨posts.mergeSort (sortLe f (directionArg == some "desc")),
    get_posts_sort_eq f directionArg posts hf hd,
    List.mergeSort_perm _ _, ?_, fun v => mergeSort_filter_key f _ posts v⟩
  have hs := List.sorted_mergeSort (sortLe_trans f (directionArg == some "desc"))
    (sortLe_total f (directionArg == some "desc")) posts
  rcases hd with rfl | rfl | rfl
  · refine hs.imp ?_
    intro a b hab
    simpa [sortLe] using hab
  · refine hs.imp ?_
    intro a b hab
    simpa [sortLe] using hab
  · refine hs.imp ?_
    intro a b hab
    simpa [sortLe] using hab

/-- Witness for C3: sorting the seed collection by title descending. -/
theorem claim_C3_witness :
    ∃ l, get_posts (some "title") (some "desc") seedPosts = .ok l
      ∧ l.Perm seedPosts
      ∧ l.Pairwise (fun a b =>
          if (some "desc" : Option String) = some "desc"
          then sortKey "title" b ≤ sortKey "title" a
          else sortKey "title" a ≤ sortKey "title" b)
      ∧ ∀ v : String, l.filter (fun p => sortKey "title" p == v)
          = seedPosts.filter (fun p => sortKey "title" p == v) :=
  claim_C3_sort_listing seedPosts "title" (some "desc") (by decide)
    (Or.inr (Or.inr rfl))
